import Mathlib

/-!
Verification of the `migration` library's planning/execution data model and
its two `Driver` implementations: the in-memory mock driver (`mock.go`) and
the postgres driver (`driver/postgres/postgres.go`).

The embedding is shallow: Go structs become Lean structures, the drivers'
`Migrate`/`Versions` methods become pure functions.  The postgres backend's
store is abstracted as a type `σ` together with a statement-execution
function `exec : σ → String → Option σ` (`none` models a failing statement);
a database transaction is modelled by running the statements on a pending
copy of the state and installing it on commit / discarding it on rollback,
which is the semantics pgx transactions provide.  The `schema_migration`
table is a list of version strings with a primary-key constraint (an INSERT
of an existing version fails).
-/

namespace MigrationLib

/-- `parser.ParsedMigration`: one statement group of a migration, with its
transaction flag (from the parser package; fields as used by the drivers). -/
structure ParsedMigration where
  Statements : List String
  UseTransaction : Bool
deriving DecidableEq, Repr

/-- Modelled from the spec: the migration direction enum (`Up`/`Down`) of the
`migration` package, whose root sources beyond `driver.go` and `mock.go` are
not in the snapshot ("PlannedMigration: { Migration, Direction: Up|Down }"). -/
inductive Direction where
  | Up : Direction
  | Down : Direction
deriving DecidableEq, Repr

/-- Modelled from the spec: the `Migration` record ("{ ID: string, Up:
ParsedMigration, Down: ParsedMigration? }"); the drivers dereference `Up` and
`Down` as pointers, so both are `Option` here. -/
structure Migration where
  ID : String
  Up : Option ParsedMigration
  Down : Option ParsedMigration
deriving DecidableEq, Repr

/-- Modelled from the spec: a migration paired with a direction, the unit of
work `Driver.Migrate` consumes. -/
structure PlannedMigration where
  migration : Migration
  direction : Direction
deriving DecidableEq, Repr

/-- The statement-group selection both drivers perform:
`if migration.Direction == Up { migrationStatements = migration.Up } else
{ migrationStatements = migration.Down }`.  `none` is a nil pointer. -/
def selectGroup (pm : PlannedMigration) : Option ParsedMigration :=
  match pm.direction with
  | Direction.Up => pm.migration.Up
  | Direction.Down => pm.migration.Down

/-- Go's `strings.Contains s sub`: `sub` occurs as a contiguous substring. -/
def strContains (s sub : String) : Bool :=
  s.data.tails.any (fun t => sub.data.isPrefixOf t)

/-! ### The mock driver (`mock.go`) -/

/-- Result of one `mockDriver.Migrate` call: a nil-pointer dereference
(`panic`), an error return (with the unchanged `applied` list), or a nil
return (with the updated `applied` list). -/
inductive MockResult where
  | panic : MockResult
  | error (msg : String) (applied : List String) : MockResult
  | ok (applied : List String) : MockResult
deriving DecidableEq, Repr

/-- `versionIndex` scan of `mockDriver.Migrate`, then the Go splice
`append(applied[:i], applied[i+1:]...)`: remove the first occurrence. -/
def removeFirst (l : List String) (id : String) : List String :=
  match l with
  | [] => []
  | x :: xs => if x = id then xs else x :: removeFirst xs id

/-- `mockDriver.Migrate`: select the group by direction (nil dereference when
absent), error when the *first* statement contains `"error"`, otherwise
append the ID on Up (when absent) or splice it out on Down (when present). -/
def mockMigrate (applied : List String) (pm : PlannedMigration) : MockResult :=
  match selectGroup pm with
  | none => MockResult.panic
  | some g =>
    let errStatement : String :=
      match g.Statements with
      | [] => ""
      | s :: _ => s
    if strContains errStatement "error" then
      MockResult.error "error executing migration" applied
    else
      match pm.direction with
      | Direction.Up =>
        if pm.migration.ID ∈ applied then MockResult.ok applied
        else MockResult.ok (applied ++ [pm.migration.ID])
      | Direction.Down =>
        if pm.migration.ID ∈ applied then
          MockResult.ok (removeFirst applied pm.migration.ID)
        else MockResult.ok applied

/-- `mockDriver.Versions`: returns the `applied` slice as is. -/
def mockVersions (applied : List String) : List String := applied

/-- `getMockDriver`: fresh driver with an empty applied list. -/
def getMockDriver : List String := []

/-- Whether a `mockDriver.Migrate` call returns nil: the selected group is
present and its first statement does not contain `"error"`.  This is
independent of the driver state. -/
def mockOk (pm : PlannedMigration) : Bool :=
  match selectGroup pm with
  | none => false
  | some g =>
    match g.Statements with
    | [] => true
    | s :: _ => !(strContains s "error")

/-- Run a sequence of `mockDriver.Migrate` calls from a given state,
threading the applied list; `none` when some call panics. -/
def mockRun (applied : List String) : List PlannedMigration → Option (List String)
  | [] => some applied
  | pm :: rest =>
    match mockMigrate applied pm with
    | MockResult.panic => none
    | MockResult.error _ a => mockRun a rest
    | MockResult.ok a => mockRun a rest

/-! ### The postgres driver (`driver/postgres/postgres.go`) -/

/-- The backing database as seen through the driver: the contents of the
`schema_migration` version table plus the abstract schema/data state `σ`
that migration statements act on. -/
structure DB (σ : Type) where
  table : List String
  store : σ
deriving DecidableEq, Repr

/-- Outcome of executing a list of statements in order:
either all succeed, or the first failure stops execution (`error` carries the
wrapped message and the state after the statements that did run). -/
inductive ExecOut (σ : Type) where
  | ok (s : σ) : ExecOut σ
  | error (msg : String) (s : σ) : ExecOut σ
deriving DecidableEq, Repr

/-- The driver's statement message: `fmt.Errorf("error executing statement:
%s\n%s", err, statement)` (the backend error text is abstracted away). -/
def stmtErrMsg (statement : String) : String :=
  "error executing statement: " ++ statement

/-- The driver's version-record message: `fmt.Errorf("error updating
migration versions: %s", err)`. -/
def versionsErrMsg : String := "error updating migration versions"

/-- The `for _, statement := range migrationStatements.Statements` loop:
execute each statement in order, stopping at the first failure. -/
def execStmts (exec : σ → String → Option σ) : σ → List String → ExecOut σ
  | s, [] => ExecOut.ok s
  | s, stmt :: rest =>
    match exec s stmt with
    | none => ExecOut.error (stmtErrMsg stmt) s
    | some s' => execStmts exec s' rest

/-- The version-record statement chosen by direction: Up runs
`INSERT INTO schema_migration (version) VALUES ($1)` (fails on the
primary-key constraint when the version is already recorded), Down runs
`DELETE FROM schema_migration WHERE version=$1`. -/
def versionUpdate (db : DB σ) (dir : Direction) (id : String) : Option (DB σ) :=
  match dir with
  | Direction.Up =>
    if id ∈ db.table then none
    else some { db with table := db.table ++ [id] }
  | Direction.Down =>
    some { db with table := db.table.filter (fun v => v ≠ id) }

/-- Result of one postgres `Driver.Migrate` call, carrying the database
state after the call. -/
inductive PGResult (σ : Type) where
  | panic : PGResult σ
  | error (msg : String) (db : DB σ) : PGResult σ
  | ok (db : DB σ) : PGResult σ
deriving DecidableEq, Repr

/-- Postgres `Driver.Migrate`: select the statement group and version-record
statement by direction (nil dereference when the group is absent).  With
`UseTransaction`, statements and the version update run inside `Begin` /
`Commit`, and the deferred `Rollback` on error discards every effect; without
it, each statement runs directly on the store, so a failure leaves the
earlier statements' effects in place and the version table untouched. -/
def pgMigrate (exec : σ → String → Option σ) (db : DB σ)
    (pm : PlannedMigration) : PGResult σ :=
  match selectGroup pm with
  | none => PGResult.panic
  | some g =>
    if g.UseTransaction then
      match execStmts exec db.store g.Statements with
      | ExecOut.error msg _ => PGResult.error msg db
      | ExecOut.ok s' =>
        match versionUpdate { db with store := s' } pm.direction pm.migration.ID with
        | none => PGResult.error versionsErrMsg db
        | some db' => PGResult.ok db'
    else
      match execStmts exec db.store g.Statements with
      | ExecOut.error msg s' => PGResult.error msg { db with store := s' }
      | ExecOut.ok s' =>
        match versionUpdate { db with store := s' } pm.direction pm.migration.ID with
        | none => PGResult.error versionsErrMsg { db with store := s' }
        | some db' => PGResult.ok db'

/-- Kernel-computable lexicographic order on character lists, the order
postgres's `ORDER BY version` uses on version strings. -/
def charListLe : List Char → List Char → Bool
  | [], _ => true
  | _ :: _, [] => false
  | a :: as, b :: bs => if a = b then charListLe as bs else decide (a < b)

/-- String comparison backing `ORDER BY version`. -/
def strLe (a b : String) : Bool := charListLe a.data b.data

/-- Postgres `Driver.Versions`: `SELECT version FROM schema_migration ORDER
BY version DESC` — the table's contents sorted descending. -/
def pgVersions (db : DB σ) : List String :=
  List.insertionSort (fun a b => strLe b a = true) db.table

/-- Modelled from the spec: the state of the `schema_migration` relation in
the database catalog (`none` when the table does not exist), needed to state
idempotence of the construction-time DDL. -/
structure PGCatalog where
  schema_migration : Option (List String)
deriving DecidableEq, Repr

/-- `Driver.ensureVersionTableExists`: runs `CREATE TABLE IF NOT EXISTS
schema_migration (version varchar(255) not null primary key)` — creates the
empty table when absent and does nothing when it already exists. -/
def ensureVersionTableExists (c : PGCatalog) : PGCatalog :=
  match c.schema_migration with
  | some _ => c
  | none => { schema_migration := some [] }

/-! ### Helper lemmas -/

theorem removeFirst_sublist (l : List String) (id : String) :
    (removeFirst l id).Sublist l := by
  induction l with
  | nil => simp [removeFirst]
  | cons x xs ih =>
    by_cases h : x = id
    · simp [removeFirst, h]
    · simpa [removeFirst, h] using ih.cons₂ x

theorem removeFirst_nodup {l : List String} (id : String) (h : l.Nodup) :
    (removeFirst l id).Nodup :=
  (removeFirst_sublist l id).nodup h

theorem mem_removeFirst_of_ne {x id : String} (l : List String) (hne : x ≠ id) :
    x ∈ removeFirst l id ↔ x ∈ l := by
  induction l with
  | nil => simp [removeFirst]
  | cons y ys ih =>
    by_cases h : y = id
    · subst h
      simp [removeFirst, hne, Ne.symm hne]
    · simp [removeFirst, h, ih]

theorem not_mem_removeFirst_self {l : List String} (id : String) (h : l.Nodup) :
    id ∉ removeFirst l id := by
  induction l with
  | nil => simp [removeFirst]
  | cons y ys ih =>
    rcases List.nodup_cons.mp h with ⟨hy, hys⟩
    by_cases hyid : y = id
    · subst hyid
      simpa [removeFirst] using hy
    · simpa [removeFirst, hyid, Ne.symm hyid] using ih hys

theorem removeFirst_append_of_not_mem {l : List String} {id : String}
    (h : id ∉ l) : removeFirst (l ++ [id]) id = l := by
  induction l with
  | nil => simp [removeFirst]
  | cons y ys ih =>
    have hy : y ≠ id := by
      intro hEq
      exact h (hEq ▸ List.mem_cons_self y ys)
    have hys : id ∉ ys := fun hmem => h (List.mem_cons_of_mem y hmem)
    simp [removeFirst, hy, ih hys]

theorem execStmts_append (exec : σ → String → Option σ) (s : σ)
    (l1 l2 : List String) :
    execStmts exec s (l1 ++ l2) =
      match execStmts exec s l1 with
      | ExecOut.ok s' => execStmts exec s' l2
      | ExecOut.error msg t => ExecOut.error msg t := by
  induction l1 generalizing s with
  | nil => simp [execStmts]
  | cons stmt rest ih =>
    simp only [List.cons_append, execStmts]
    cases exec s stmt with
    | none => rfl
    | some s' => exact ih s'

theorem charListLe_total (as bs : List Char) :
    charListLe as bs = true ∨ charListLe bs as = true := by
  induction as generalizing bs with
  | nil => left; rfl
  | cons a as ih =>
    cases bs with
    | nil => right; rfl
    | cons b bs =>
      by_cases hab : a = b
      · subst hab
        rcases ih bs with h | h
        · left; simpa [charListLe] using h
        · right; simpa [charListLe] using h
      · rcases lt_or_gt_of_ne hab with hlt | hgt
        · left; simp [charListLe, hab, hlt]
        · right
          simp [charListLe, Ne.symm hab, hgt]

theorem charListLe_trans {as bs cs : List Char}
    (h1 : charListLe as bs = true) (h2 : charListLe bs cs = true) :
    charListLe as cs = true := by
  induction as generalizing bs cs with
  | nil => rfl
  | cons a as ih =>
    cases bs with
    | nil => simp [charListLe] at h1
    | cons b bs =>
      cases cs with
      | nil => simp [charListLe] at h2
      | cons c cs =>
        by_cases hab : a = b <;> by_cases hbc : b = c
        · subst hab; subst hbc
          simp only [charListLe, if_pos rfl] at h1 h2 ⊢
          exact ih h1 h2
        · subst hab
          simp only [charListLe, if_pos rfl] at h1
          simp only [charListLe, if_neg hbc, decide_eq_true_eq] at h2
          simp [charListLe, hbc, h2]
        · subst hbc
          simp only [charListLe, if_neg hab, decide_eq_true_eq] at h1
          simp [charListLe, hab, h1]
        · simp only [charListLe, if_neg hab, decide_eq_true_eq] at h1
          simp only [charListLe, if_neg hbc, decide_eq_true_eq] at h2
          have hac : a < c := lt_trans h1 h2
          simp [charListLe, ne_of_lt hac, hac]

theorem mockMigrate_ok_of_mockOk {pm : PlannedMigration} (applied : List String)
    (h : mockOk pm = true) :
    mockMigrate applied pm = MockResult.ok
      (match pm.direction with
       | Direction.Up =>
         if pm.migration.ID ∈ applied then applied
         else applied ++ [pm.migration.ID]
       | Direction.Down =>
         if pm.migration.ID ∈ applied then removeFirst applied pm.migration.ID
         else applied) := by
  cases hsel : selectGroup pm with
  | none => simp [mockOk, hsel] at h
  | some g =>
    cases hst : g.Statements with
    | nil =>
      simp only [mockMigrate, hsel, hst]
      have : strContains "" "error" = false := by decide
      cases hd : pm.direction <;> simp only [this, Bool.false_eq_true,
        if_false] <;> split <;> rfl
    | cons s rest =>
      simp only [mockOk, hsel, hst, Bool.not_eq_eq_eq_not, Bool.not_true] at h
      simp only [mockMigrate, hsel, hst, h]
      cases hd : pm.direction <;> simp only [Bool.false_eq_true,
        if_false] <;> split <;> rfl

theorem mockMigrate_not_ok {pm : PlannedMigration} (applied : List String)
    (h : mockOk pm = false) :
    mockMigrate applied pm = MockResult.panic ∨
      mockMigrate applied pm =
        MockResult.error "error executing migration" applied := by
  cases hsel : selectGroup pm with
  | none => left; simp [mockMigrate, hsel]
  | some g =>
    cases hst : g.Statements with
    | nil => simp [mockOk, hsel, hst] at h
    | cons s rest =>
      simp only [mockOk, hsel, hst, Bool.not_eq_eq_eq_not, Bool.not_false] at h
      right
      simp [mockMigrate, hsel, hst, h]

theorem mockRun_append (a : List String) (l1 l2 : List PlannedMigration) :
    mockRun a (l1 ++ l2) =
      match mockRun a l1 with
      | none => none
      | some a' => mockRun a' l2 := by
  induction l1 generalizing a with
  | nil => simp [mockRun]
  | cons pm rest ih =>
    simp only [List.cons_append, mockRun]
    cases mockMigrate a pm with
    | panic => rfl
    | error msg a' => exact ih a'
    | ok a' => exact ih a'

theorem mockMigrate_ok_nodup {applied a' : List String} {pm : PlannedMigration}
    (h : mockMigrate applied pm = MockResult.ok a') (hnd : applied.Nodup) :
    a'.Nodup := by
  cases hok : mockOk pm with
  | false =>
    rcases mockMigrate_not_ok applied hok with hpanic | herr
    · rw [h] at hpanic; cases hpanic
    · rw [h] at herr; cases herr
  | true =>
    rw [mockMigrate_ok_of_mockOk applied hok] at h
    injection h with h
    subst h
    cases pm.direction with
    | Up =>
      by_cases hmem : pm.migration.ID ∈ applied
      · simpa [hmem] using hnd
      · refine if_neg hmem ▸ List.Nodup.append hnd (List.nodup_singleton _) ?_
        intro x hx hx2
        simp only [List.mem_singleton] at hx2
        subst hx2
        exact hmem hx
    | Down =>
      by_cases hmem : pm.migration.ID ∈ applied
      · simpa [hmem] using removeFirst_nodup _ hnd
      · simpa [hmem] using hnd

theorem mockRun_nodup {pms : List PlannedMigration} {a applied : List String}
    (h : mockRun a pms = some applied) (hnd : a.Nodup) : applied.Nodup := by
  induction pms generalizing a with
  | nil =>
    simp only [mockRun, Option.some.injEq] at h
    exact h ▸ hnd
  | cons pm rest ih =>
    simp only [mockRun] at h
    cases hstep : mockMigrate a pm with
    | panic => rw [hstep] at h; cases h
    | error msg a' =>
      rw [hstep] at h
      have ha' : a' = a := by
        cases hok : mockOk pm with
        | false =>
          rcases mockMigrate_not_ok a hok with hpanic | herr
          · rw [hstep] at hpanic; cases hpanic
          · rw [hstep] at herr
            injection herr
        | true =>
          rw [mockMigrate_ok_of_mockOk a hok] at hstep; cases hstep
      exact ih h (ha' ▸ hnd)
    | ok a' =>
      rw [hstep] at h
      exact ih h (mockMigrate_ok_nodup hstep hnd)

theorem mockMigrate_ne_panic {pm : PlannedMigration} (applied : List String)
    {g : ParsedMigration} (hg : selectGroup pm = some g) :
    mockMigrate applied pm ≠ MockResult.panic := by
  simp only [mockMigrate, hg]
  split
  · simp
  · split <;> split <;> simp

theorem pgMigrate_ne_panic {σ : Type} (exec : σ → String → Option σ)
    (db : DB σ) {pm : PlannedMigration} {g : ParsedMigration}
    (hg : selectGroup pm = some g) :
    pgMigrate exec db pm ≠ PGResult.panic := by
  simp only [pgMigrate, hg]
  split <;> split
  · simp
  · split <;> simp
  · simp
  · split <;> simp

/-- Statement-execution model used by concrete witnesses: the store counts
executed statements, and a statement containing `"boom"` fails. -/
def exF : Nat → String → Option Nat :=
  fun n s => if strContains s "boom" then none else some (n + 1)

/-! ### Claims -/

/-- C8: the version-table creation statement run at driver construction
(`CREATE TABLE IF NOT EXISTS schema_migration ...`) is idempotent: on a
store where the table already exists it succeeds and leaves the table and
its contents unchanged, and two consecutive runs equal one run. -/
theorem c8_ensure_version_table_idempotent :
    (∀ c : PGCatalog,
      ensureVersionTableExists (ensureVersionTableExists c) =
        ensureVersionTableExists c) ∧
    (∀ t : List String,
      ensureVersionTableExists ⟨some t⟩ = ⟨some t⟩) := by
  refine ⟨fun c => ?_, fun t => rfl⟩
  cases c with
  | mk s => cases s <;> rfl

/-- C10: both drivers dereference the statement group selected by the
direction without a nil check.  Under the precondition that the selected
group is present no nil dereference occurs, and without the precondition the
nil-dereference branch is reachable: a Down-direction call on a migration
whose Down block is nil panics in both drivers. -/
theorem c10_nil_dereference :
    (∀ (applied : List String) (pm : PlannedMigration),
        (pm.direction = Direction.Up → pm.migration.Up ≠ none) →
        (pm.direction = Direction.Down → pm.migration.Down ≠ none) →
        mockMigrate applied pm ≠ MockResult.panic) ∧
    (∀ (σ : Type) (exec : σ → String → Option σ) (db : DB σ)
        (pm : PlannedMigration),
        (pm.direction = Direction.Up → pm.migration.Up ≠ none) →
        (pm.direction = Direction.Down → pm.migration.Down ≠ none) →
        pgMigrate exec db pm ≠ PGResult.panic) ∧
    mockMigrate [] ⟨⟨"m", some ⟨["s"], false⟩, none⟩, Direction.Down⟩ =
      MockResult.panic ∧
    pgMigrate exF ⟨[], 0⟩ ⟨⟨"m", some ⟨["s"], false⟩, none⟩, Direction.Down⟩ =
      PGResult.panic := by
  have hsel : ∀ pm : PlannedMigration,
      (pm.direction = Direction.Up → pm.migration.Up ≠ none) →
      (pm.direction = Direction.Down → pm.migration.Down ≠ none) →
      ∃ g, selectGroup pm = some g := by
    intro pm h1 h2
    cases hdir : pm.direction with
    | Up =>
      rcases hu : pm.migration.Up with _ | g
      · exact absurd hu (h1 hdir)
      · exact ⟨g, by simp [selectGroup, hdir, hu]⟩
    | Down =>
      rcases hd : pm.migration.Down with _ | g
      · exact absurd hd (h2 hdir)
      · exact ⟨g, by simp [selectGroup, hdir, hd]⟩
  refine ⟨?_, ?_, rfl, rfl⟩
  · intro applied pm h1 h2
    obtain ⟨g, hg⟩ := hsel pm h1 h2
    exact mockMigrate_ne_panic applied hg
  · intro σ exec db pm h1 h2
    obtain ⟨g, hg⟩ := hsel pm h1 h2
    exact pgMigrate_ne_panic exec db hg

/-- C10 witness: a Down call whose Down group is present does not panic. -/
theorem c10_nil_dereference_witness :
    mockMigrate [] ⟨⟨"m", some ⟨["s"], false⟩, some ⟨["t"], false⟩⟩,
      Direction.Down⟩ ≠ MockResult.panic :=
  c10_nil_dereference.1 []
    ⟨⟨"m", some ⟨["s"], false⟩, some ⟨["t"], false⟩⟩, Direction.Down⟩
    (fun _ => by decide) (fun _ => by decide)

/-- C7 counterexample: a statement group whose second statement contains
the literal `"error"` does not make `mockDriver.Migrate` fail — only the
first statement is inspected, so the claim's "some statement" is wrong. -/
theorem c7_counterexample :
    strContains "this has error inside" "error" = true ∧
    mockMigrate []
      ⟨⟨"m1", some ⟨["ok", "this has error inside"], false⟩, none⟩,
        Direction.Up⟩ = MockResult.ok ["m1"] := by
  constructor
  · decide
  · rfl

/-- C7 (amended): `mockDriver.Migrate` returns an error iff the FIRST
statement of the selected statement group contains the literal substring
`"error"` (later statements are never inspected); when it errors, the
applied list is left unchanged. -/
theorem c7_mock_error_trigger (applied : List String) (pm : PlannedMigration)
    (g : ParsedMigration) (hg : selectGroup pm = some g) :
    ((∃ msg a, mockMigrate applied pm = MockResult.error msg a) ↔
      strContains (g.Statements.headD "") "error" = true) ∧
    (∀ msg a, mockMigrate applied pm = MockResult.error msg a →
      a = applied) := by
  have hhead : (match g.Statements with | [] => "" | s :: _ => s) =
      g.Statements.headD "" := by
    cases g.Statements <;> rfl
  cases hc : strContains (g.Statements.headD "") "error" with
  | false =>
    have hok : mockOk pm = true := by
      simp only [mockOk, hg]
      cases hst : g.Statements with
      | nil => rfl
      | cons s rest =>
        rw [hst] at hc
        simp only [List.headD_cons] at hc
        simp [hc]
    rw [mockMigrate_ok_of_mockOk applied hok]
    constructor
    · simp
    · intro msg a h
      cases h
  | true =>
    have herr : mockMigrate applied pm =
        MockResult.error "error executing migration" applied := by
      simp only [mockMigrate, hg]
      rw [hhead, hc]
      simp
    rw [herr]
    constructor
    · exact ⟨fun _ => rfl, fun _ => ⟨_, _, rfl⟩⟩
    · intro msg a h
      injection h with h1 h2
      exact h2.symm

/-- C7 witness: a group whose first statement contains `"error"` makes the
mock driver fail and leaves the applied list unchanged. -/
theorem c7_mock_error_trigger_witness :
    ((∃ msg a, mockMigrate ["z"]
        ⟨⟨"e1", some ⟨["x error y"], false⟩, none⟩, Direction.Up⟩ =
        MockResult.error msg a) ↔
      strContains ((["x error y"] : List String).headD "") "error" = true) ∧
    (∀ msg a, mockMigrate ["z"]
        ⟨⟨"e1", some ⟨["x error y"], false⟩, none⟩, Direction.Up⟩ =
        MockResult.error msg a → a = ["z"]) :=
  c7_mock_error_trigger ["z"]
    ⟨⟨"e1", some ⟨["x error y"], false⟩, none⟩, Direction.Up⟩
    ⟨["x error y"], false⟩ rfl

/-- C6 counterexample: the mock driver's `Versions` returns the applied list
in insertion order; after applying `"a"` then `"b"` it returns
`["a", "b"]`, which is not descending, so "every driver state" fails. -/
theorem c6_counterexample :
    mockVersions ["a", "b"] = ["a", "b"] ∧
    ¬ List.Pairwise (fun x y => strLe y x = true) (mockVersions ["a", "b"]) := by
  exact ⟨rfl, by decide⟩

/-- C6 (amended): the postgres driver's `Versions` returns the version-table
contents sorted descending (`ORDER BY version DESC`), but the mock driver's
`Versions` returns the applied list exactly as stored, in insertion order,
with no sorting. -/
theorem c6_versions_order (σ : Type) (db : DB σ) (applied : List String) :
    List.Pairwise (fun x y => strLe y x = true) (pgVersions db) ∧
    (pgVersions db).Perm db.table ∧
    mockVersions applied = applied := by
  refine ⟨?_, List.perm_insertionSort _ db.table, rfl⟩
  have h := @List.sorted_insertionSort String (fun a b => strLe b a = true) _
    ⟨fun a b => charListLe_total b.data a.data⟩
    ⟨fun a b c h1 h2 => charListLe_trans h2 h1⟩ db.table
  exact h

/-- C5 counterexample: from a state where `"a"` is already applied, Up on
`"a"` succeeds as a no-op and Down on `"a"` then removes it, so the
round trip does not restore `Versions` for every driver state. -/
theorem c5_counterexample :
    mockMigrate ["a"] ⟨⟨"a", some ⟨["s"], false⟩, some ⟨["t"], false⟩⟩,
      Direction.Up⟩ = MockResult.ok ["a"] ∧
    mockMigrate ["a"] ⟨⟨"a", some ⟨["s"], false⟩, some ⟨["t"], false⟩⟩,
      Direction.Down⟩ = MockResult.ok [] ∧
    mockVersions [] ≠ mockVersions ["a"] := by
  refine ⟨rfl, rfl, by decide⟩

/-- C5 (amended): for a migration whose Up and Down groups both succeed
(present, first statement without `"error"`), and whose ID is NOT already in
the applied list, Up followed by Down succeeds and restores the mock
driver's `Versions` to its pre-Up value. -/
theorem c5_round_trip (applied : List String) (mig : Migration)
    (hnm : mig.ID ∉ applied)
    (hup : mockOk ⟨mig, Direction.Up⟩ = true)
    (hdown : mockOk ⟨mig, Direction.Down⟩ = true) :
    ∃ a1 a2, mockMigrate applied ⟨mig, Direction.Up⟩ = MockResult.ok a1 ∧
      mockMigrate a1 ⟨mig, Direction.Down⟩ = MockResult.ok a2 ∧
      mockVersions a2 = mockVersions applied := by
  refine ⟨applied ++ [mig.ID], applied, ?_, ?_, rfl⟩
  · rw [mockMigrate_ok_of_mockOk applied hup]
    simp [hnm]
  · rw [mockMigrate_ok_of_mockOk (applied ++ [mig.ID]) hdown]
    have hmem : mig.ID ∈ applied ++ [mig.ID] := by simp
    simp only [hmem, if_true]
    rw [removeFirst_append_of_not_mem hnm]

/-- C5 witness: a concrete Up-then-Down round trip from `["z"]`. -/
theorem c5_round_trip_witness :
    ∃ a1 a2, mockMigrate ["z"]
        ⟨⟨"a", some ⟨["s"], false⟩, some ⟨["t"], false⟩⟩, Direction.Up⟩ =
        MockResult.ok a1 ∧
      mockMigrate a1
        ⟨⟨"a", some ⟨["s"], false⟩, some ⟨["t"], false⟩⟩, Direction.Down⟩ =
        MockResult.ok a2 ∧
      mockVersions a2 = mockVersions ["z"] :=
  c5_round_trip ["z"] ⟨"a", some ⟨["s"], false⟩, some ⟨["t"], false⟩⟩
    (by decide) (by decide) (by decide)

theorem pgMigrate_ok_inv {σ : Type} {exec : σ → String → Option σ}
    {db db' : DB σ} {pm : PlannedMigration} {g : ParsedMigration}
    (hg : selectGroup pm = some g)
    (h : pgMigrate exec db pm = PGResult.ok db') :
    ∃ s', execStmts exec db.store g.Statements = ExecOut.ok s' ∧
      versionUpdate { db with store := s' } pm.direction pm.migration.ID =
        some db' := by
  simp only [pgMigrate, hg] at h
  split at h
  · split at h
    · cases h
    · rename_i s' hes
      split at h
      · cases h
      · rename_i db'' hvu
        injection h with h1
        exact ⟨s', hes, h1 ▸ hvu⟩
  · split at h
    · cases h
    · rename_i s' hes
      split at h
      · cases h
      · rename_i db'' hvu
        injection h with h1
        exact ⟨s', hes, h1 ▸ hvu⟩

theorem versionUpdate_up_inv {σ : Type} {db db' : DB σ} {id : String}
    (h : versionUpdate db Direction.Up id = some db') :
    id ∉ db.table ∧ db' = { db with table := db.table ++ [id] } := by
  simp only [versionUpdate] at h
  by_cases hm : id ∈ db.table
  · rw [if_pos hm] at h
    cases h
  · rw [if_neg hm] at h
    injection h with h1
    exact ⟨hm, h1.symm⟩

theorem versionUpdate_down_inv {σ : Type} {db db' : DB σ} {id : String}
    (h : versionUpdate db Direction.Down id = some db') :
    db' = { db with table := db.table.filter (fun v => v ≠ id) } := by
  simp only [versionUpdate] at h
  injection h with h1
  exact h1.symm

/-- C1: with `UseTransaction` set, `Driver.Migrate` runs the statements and
the version-record update as one atomic unit: whenever it returns an error
(a failing statement or a failing version insert), the database — store and
version table alike — is exactly the pre-call state; on success the final
state is the sequential result of all statements plus the version update. -/
theorem c1_transactional_atomicity (σ : Type) (exec : σ → String → Option σ)
    (db : DB σ) (pm : PlannedMigration) (g : ParsedMigration)
    (hg : selectGroup pm = some g) (htx : g.UseTransaction = true) :
    (∀ msg db', pgMigrate exec db pm = PGResult.error msg db' → db' = db) ∧
    (∀ db', pgMigrate exec db pm = PGResult.ok db' →
      ∃ s', execStmts exec db.store g.Statements = ExecOut.ok s' ∧
        versionUpdate { db with store := s' } pm.direction pm.migration.ID =
          some db') := by
  constructor
  · intro msg db' h
    simp only [pgMigrate, hg] at h
    split at h
    · split at h
      · injection h with h1 h2
        exact h2.symm
      · split at h
        · injection h with h1 h2
          exact h2.symm
        · cases h
    · rename_i hcond
      rw [htx] at hcond
      exact absurd rfl hcond
  · intro db' h
    exact pgMigrate_ok_inv hg h

/-- C1 witness: a transactional group whose second statement fails leaves a
concrete database exactly unchanged. -/
theorem c1_transactional_atomicity_witness :
    (⟨["v"], 0⟩ : DB Nat) = ⟨["v"], 0⟩ :=
  (c1_transactional_atomicity Nat exF ⟨["v"], 0⟩
      ⟨⟨"m", some ⟨["s1", "xboomx", "s3"], true⟩, none⟩, Direction.Up⟩
      ⟨["s1", "xboomx", "s3"], true⟩ rfl rfl).1
    (stmtErrMsg "xboomx") ⟨["v"], 0⟩ (by decide)

/-- C2: without `UseTransaction`, a failure at statement k leaves statements
1..k-1 applied to the store, never attempts the remaining statements (the
result does not depend on them), leaves the version table unchanged, and
returns an error naming the failing statement. -/
theorem c2_nontx_partial_failure (σ : Type) (exec : σ → String → Option σ)
    (db : DB σ) (pm : PlannedMigration) (g : ParsedMigration)
    (pre : List String) (bad : String) (post : List String) (s' : σ)
    (hg : selectGroup pm = some g) (htx : g.UseTransaction = false)
    (hstmts : g.Statements = pre ++ bad :: post)
    (hpre : execStmts exec db.store pre = ExecOut.ok s')
    (hbad : exec s' bad = none) :
    pgMigrate exec db pm =
      PGResult.error (stmtErrMsg bad) { table := db.table, store := s' } := by
  have hrun : execStmts exec db.store g.Statements =
      ExecOut.error (stmtErrMsg bad) s' := by
    rw [hstmts, execStmts_append, hpre]
    simp only [execStmts, hbad]
  simp only [pgMigrate, hg]
  split
  · rename_i hcond
    rw [htx] at hcond
    exact absurd hcond (by simp)
  · rw [hrun]

/-- C2 witness: a concrete non-transactional group `[s1, xboomx, s3]` fails
on the second statement with only the first applied and the table intact. -/
theorem c2_nontx_partial_failure_witness :
    pgMigrate exF ⟨["v"], 0⟩
      ⟨⟨"m", some ⟨["s1", "xboomx", "s3"], false⟩, none⟩, Direction.Up⟩ =
      PGResult.error (stmtErrMsg "xboomx") ⟨["v"], 1⟩ :=
  c2_nontx_partial_failure Nat exF ⟨["v"], 0⟩
    ⟨⟨"m", some ⟨["s1", "xboomx", "s3"], false⟩, none⟩, Direction.Up⟩
    ⟨["s1", "xboomx", "s3"], false⟩ ["s1"] "xboomx" ["s3"] 1
    rfl rfl rfl (by decide) (by decide)

/-- C3: `Driver.Migrate` selects the Up group for Direction Up and the Down
group for Direction Down; on success the postgres driver has executed the
selected group's statements in order and appended the migration ID to the
version table (Up) or removed it (Down), and the mock driver's applied list
is likewise updated (append when absent for Up, splice-out for Down). -/
theorem c3_migrate_direction_and_record (σ : Type)
    (exec : σ → String → Option σ) (db : DB σ) (pm : PlannedMigration)
    (g : ParsedMigration) (hg : selectGroup pm = some g) :
    ((pm.direction = Direction.Up → pm.migration.Up = some g) ∧
     (pm.direction = Direction.Down → pm.migration.Down = some g)) ∧
    (∀ db', pgMigrate exec db pm = PGResult.ok db' →
      ∃ s', execStmts exec db.store g.Statements = ExecOut.ok s' ∧
        db'.store = s' ∧
        (pm.direction = Direction.Up →
          db'.table = db.table ++ [pm.migration.ID]) ∧
        (pm.direction = Direction.Down →
          db'.table = db.table.filter (fun v => v ≠ pm.migration.ID))) ∧
    (∀ applied a', mockMigrate applied pm = MockResult.ok a' →
      (pm.direction = Direction.Up →
        a' = if pm.migration.ID ∈ applied then applied
             else applied ++ [pm.migration.ID]) ∧
      (pm.direction = Direction.Down →
        a' = if pm.migration.ID ∈ applied then
               removeFirst applied pm.migration.ID
             else applied)) := by
  refine ⟨⟨?_, ?_⟩, ?_, ?_⟩
  · intro hdir
    rw [selectGroup, hdir] at hg
    exact hg
  · intro hdir
    rw [selectGroup, hdir] at hg
    exact hg
  · intro db' h
    obtain ⟨s', hes, hvu⟩ := pgMigrate_ok_inv hg h
    refine ⟨s', hes, ?_, ?_, ?_⟩
    · cases hdir : pm.direction with
      | Up =>
        rw [hdir] at hvu
        rw [(versionUpdate_up_inv hvu).2]
      | Down =>
        rw [hdir] at hvu
        rw [versionUpdate_down_inv hvu]
    · intro hdir
      rw [hdir] at hvu
      rw [(versionUpdate_up_inv hvu).2]
    · intro hdir
      rw [hdir] at hvu
      rw [versionUpdate_down_inv hvu]
  · intro applied a' h
    cases hok : mockOk pm with
    | false =>
      rcases mockMigrate_not_ok applied hok with hp | he
      · rw [h] at hp; cases hp
      · rw [h] at he; cases he
    | true =>
      rw [mockMigrate_ok_of_mockOk applied hok] at h
      injection h with h1
      constructor
      · intro hdir
        rw [hdir] at h1
        exact h1.symm
      · intro hdir
        rw [hdir] at h1
        exact h1.symm

/-- C3 witness: a concrete Up and a concrete Down call, on both drivers. -/
theorem c3_migrate_direction_and_record_witness :
    ((⟨⟨"m", some ⟨["s1"], true⟩, none⟩, Direction.Up⟩ :
        PlannedMigration).direction = Direction.Up →
      (⟨⟨"m", some ⟨["s1"], true⟩, none⟩, Direction.Up⟩ :
        PlannedMigration).migration.Up = some ⟨["s1"], true⟩) ∧
    pgMigrate exF ⟨["v"], 0⟩
      ⟨⟨"m", some ⟨["s1"], true⟩, none⟩, Direction.Up⟩ =
      PGResult.ok ⟨["v", "m"], 1⟩ ∧
    mockMigrate ["v"] ⟨⟨"m", some ⟨["s1"], true⟩, none⟩, Direction.Up⟩ =
      MockResult.ok ["v", "m"] := by
  refine ⟨?_, by decide, by decide⟩
  exact (c3_migrate_direction_and_record Nat exF ⟨["v"], 0⟩
    ⟨⟨"m", some ⟨["s1"], true⟩, none⟩, Direction.Up⟩
    ⟨["s1"], true⟩ rfl).1.1

/-- A `Migrate(id, Up)` call that completes successfully (returns nil). -/
abbrev successfulUp (pm : PlannedMigration) (id : String) : Prop :=
  mockOk pm = true ∧ pm.direction = Direction.Up ∧ pm.migration.ID = id

/-- A `Migrate(id, Down)` call that completes successfully (returns nil). -/
abbrev successfulDown (pm : PlannedMigration) (id : String) : Prop :=
  mockOk pm = true ∧ pm.direction = Direction.Down ∧ pm.migration.ID = id

/-- Some `Migrate(id, Up)` call in the sequence completed successfully and
no later `Migrate(id, Down)` call completed successfully. -/
def upNotReverted (pms : List PlannedMigration) (id : String) : Prop :=
  ∃ l1 pm l2, pms = l1 ++ pm :: l2 ∧ successfulUp pm id ∧
    ∀ pm' ∈ l2, ¬ successfulDown pm' id

theorem upNotReverted_nil (id : String) : ¬ upNotReverted [] id := by
  rintro ⟨l1, pm, l2, hsplit, _, _⟩
  cases l1 <;> simp at hsplit

theorem upNotReverted_snoc (pms : List PlannedMigration)
    (pm : PlannedMigration) (id : String) :
    upNotReverted (pms ++ [pm]) id ↔
      successfulUp pm id ∨
        (upNotReverted pms id ∧ ¬ successfulDown pm id) := by
  constructor
  · rintro ⟨l1, pmW, l2, hsplit, hup, hall⟩
    rcases List.eq_nil_or_concat l2 with rfl | ⟨l2', x, rfl⟩
    · obtain ⟨h1, h2⟩ := List.append_inj' hsplit rfl
      exact Or.inl ((List.cons.inj h2).1 ▸ hup)
    · have hsplit' : pms ++ [pm] = (l1 ++ pmW :: l2') ++ [x] := by
        rw [hsplit, List.concat_eq_append]
        simp
      obtain ⟨h1, h2⟩ := List.append_inj' hsplit' rfl
      have hx : pm = x := (List.cons.inj h2).1
      refine Or.inr ⟨⟨l1, pmW, l2', h1, hup, ?_⟩, ?_⟩
      · intro pm' hm
        exact hall pm' (by simp [List.concat_eq_append, hm])
      · have := hall x (by simp [List.concat_eq_append])
        exact hx ▸ this
  · rintro (hup | ⟨⟨l1, pmW, l2, rfl, hup, hall⟩, hnot⟩)
    · exact ⟨pms, pm, [], rfl, hup, by simp⟩
    · refine ⟨l1, pmW, l2 ++ [pm], by simp, hup, ?_⟩
      intro pm' hm
      rcases List.mem_append.mp hm with hm | hm
      · exact hall pm' hm
      · rw [List.mem_singleton.mp hm]
        exact hnot

theorem mockRun_singleton (a : List String) (pm : PlannedMigration) :
    mockRun a [pm] =
      match mockMigrate a pm with
      | MockResult.panic => none
      | MockResult.error _ a' => some a'
      | MockResult.ok a' => some a' := by
  simp only [mockRun]

theorem mockRun_mem_iff (pms : List PlannedMigration) :
    ∀ applied, mockRun [] pms = some applied →
      ∀ id, (id ∈ applied ↔ upNotReverted pms id) := by
  induction pms using List.reverseRecOn with
  | nil =>
    intro applied h id
    simp only [mockRun, Option.some.injEq] at h
    subst h
    simp only [List.not_mem_nil, false_iff]
    exact upNotReverted_nil id
  | append_singleton rest pm ih =>
    intro applied h id
    rw [mockRun_append] at h
    cases hmid : mockRun [] rest with
    | none => rw [hmid] at h; cases h
    | some mid =>
      rw [hmid] at h
      have hnd : mid.Nodup := mockRun_nodup hmid List.nodup_nil
      have hiff := ih mid hmid id
      replace h : mockRun mid [pm] = some applied := h
      rw [mockRun_singleton] at h
      rw [upNotReverted_snoc]
      cases hok : mockOk pm with
      | false =>
        rcases mockMigrate_not_ok mid hok with hp | he
        · rw [hp] at h; cases h
        · rw [he] at h
          have h2 : some mid = some applied := h
          injection h2 with h3
          subst h3
          constructor
          · intro hmem
            refine Or.inr ⟨hiff.mp hmem, ?_⟩
            rintro ⟨hk, _, _⟩
            rw [hok] at hk
            cases hk
          · rintro (⟨hk, _, _⟩ | ⟨hupnr, _⟩)
            · rw [hok] at hk; cases hk
            · exact hiff.mpr hupnr
      | true =>
        rw [mockMigrate_ok_of_mockOk mid hok] at h
        have h2 :
            some (match pm.direction with
              | Direction.Up =>
                if pm.migration.ID ∈ mid then mid
                else mid ++ [pm.migration.ID]
              | Direction.Down =>
                if pm.migration.ID ∈ mid then removeFirst mid pm.migration.ID
                else mid) = some applied := h
        injection h2 with h3
        cases hdir : pm.direction with
        | Up =>
          rw [hdir] at h3
          by_cases hid : pm.migration.ID = id
          · subst hid
            have hmem : pm.migration.ID ∈ applied := by
              rw [← h3]
              by_cases hm : pm.migration.ID ∈ mid
              · simp [hm]
              · simp [hm]
            simp only [hmem, true_iff]
            exact Or.inl ⟨hok, hdir, rfl⟩
          · have hmemiff : id ∈ applied ↔ id ∈ mid := by
              rw [← h3]
              by_cases hm : pm.migration.ID ∈ mid
              · simp [hm]
              · simp only [hm, if_neg, if_false, List.mem_append,
                  List.mem_singleton]
                constructor
                · rintro (hmm | hmm)
                  · exact hmm
                  · exact absurd hmm.symm hid
                · exact Or.inl
            rw [hmemiff, hiff]
            constructor
            · intro hupnr
              refine Or.inr ⟨hupnr, ?_⟩
              rintro ⟨_, hd, _⟩
              rw [hdir] at hd
              cases hd
            · rintro (⟨_, _, hi⟩ | ⟨hupnr, _⟩)
              · exact absurd hi hid
              · exact hupnr
        | Down =>
          rw [hdir] at h3
          by_cases hid : pm.migration.ID = id
          · subst hid
            have hmem : pm.migration.ID ∉ applied := by
              rw [← h3]
              by_cases hm : pm.migration.ID ∈ mid
              · simpa [hm] using not_mem_removeFirst_self _ hnd
              · simp [hm]
            simp only [hmem, false_iff]
            rintro (⟨_, hd, _⟩ | ⟨_, hnot⟩)
            · rw [hdir] at hd; cases hd
            · exact hnot ⟨hok, hdir, rfl⟩
          · have hne : id ≠ pm.migration.ID := fun hEq => hid hEq.symm
            have hmemiff : id ∈ applied ↔ id ∈ mid := by
              rw [← h3]
              by_cases hm : pm.migration.ID ∈ mid
              · simpa [hm] using mem_removeFirst_of_ne mid hne
              · simp [hm]
            rw [hmemiff, hiff]
            constructor
            · intro hupnr
              refine Or.inr ⟨hupnr, ?_⟩
              rintro ⟨_, _, hi⟩
              exact hid hi
            · rintro (⟨_, hd, _⟩ | ⟨hupnr, _⟩)
              · rw [hdir] at hd; cases hd
              · exact hupnr

/-- C9: the mock driver's applied list never contains a duplicate
identifier: every successful `Migrate` call preserves duplicate-freeness,
and every state reachable from the fresh driver's empty list through a
sequence of `Migrate` calls is duplicate-free. -/
theorem c9_mock_applied_nodup :
    (∀ (applied : List String) (pm : PlannedMigration) (a' : List String),
        mockMigrate applied pm = MockResult.ok a' → applied.Nodup →
          a'.Nodup) ∧
    (∀ (pms : List PlannedMigration) (applied : List String),
        mockRun getMockDriver pms = some applied → applied.Nodup) :=
  ⟨fun _ _ _ h hnd => mockMigrate_ok_nodup h hnd,
   fun _ _ h => mockRun_nodup h List.nodup_nil⟩

/-- C9 witness: replaying Up(a), Up(a), Up(b), Down(a) from the fresh
driver yields the duplicate-free list `["b"]`. -/
theorem c9_mock_applied_nodup_witness : (["b"] : List String).Nodup :=
  c9_mock_applied_nodup.2
    [⟨⟨"a", some ⟨["s"], false⟩, some ⟨["t"], false⟩⟩, Direction.Up⟩,
     ⟨⟨"a", some ⟨["s"], false⟩, some ⟨["t"], false⟩⟩, Direction.Up⟩,
     ⟨⟨"b", some ⟨["s"], false⟩, some ⟨["t"], false⟩⟩, Direction.Up⟩,
     ⟨⟨"a", some ⟨["s"], false⟩, some ⟨["t"], false⟩⟩, Direction.Down⟩]
    ["b"] (by decide)

/-- C4: for every sequence of mock `Migrate` calls starting from the fresh
driver's empty store, an ID is reported by `Versions` iff some
`Migrate(ID, Up)` call completed successfully and no later
`Migrate(ID, Down)` call completed successfully. -/
theorem c4_versions_membership_invariant (pms : List PlannedMigration)
    (applied : List String) (h : mockRun getMockDriver pms = some applied)
    (id : String) :
    id ∈ mockVersions applied ↔ upNotReverted pms id :=
  mockRun_mem_iff pms applied h id

/-- C4 witness: after Up(a), Up(b), Down(a), the ID "b" is a member and its
Up call is not later reverted. -/
theorem c4_versions_membership_invariant_witness :
    "b" ∈ mockVersions ["b"] ↔ upNotReverted
      [⟨⟨"a", some ⟨["s"], false⟩, some ⟨["t"], false⟩⟩, Direction.Up⟩,
       ⟨⟨"b", some ⟨["s"], false⟩, some ⟨["t"], false⟩⟩, Direction.Up⟩,
       ⟨⟨"a", some ⟨["s"], false⟩, some ⟨["t"], false⟩⟩, Direction.Down⟩]
      "b" :=
  c4_versions_membership_invariant
    [⟨⟨"a", some ⟨["s"], false⟩, some ⟨["t"], false⟩⟩, Direction.Up⟩,
     ⟨⟨"b", some ⟨["s"], false⟩, some ⟨["t"], false⟩⟩, Direction.Up⟩,
     ⟨⟨"a", some ⟨["s"], false⟩, some ⟨["t"], false⟩⟩, Direction.Down⟩]
    ["b"] (by decide) "b"

end MigrationLib
